import Mathlib

/-!
Verification of the G-code tool-path simulator (`GCodeSimulator` class).

Shallow embedding conventions:

* JavaScript numbers are modelled by `JF`: `nan`, the two infinities, and
  finite values as exact rationals.  The source only ever produces numbers
  via `parseFloat`/`parseInt` on short decimal strings and via
  `Math.min`/`Math.max`, so exact rationals are a faithful carrier for the
  finite values; NaN and the infinities are represented explicitly because
  `parseGcode` seeds its bounding box with `Infinity`/`-Infinity` and
  `parseFloat` can return NaN.
* Strings are processed as `List Char` (a JS string is a sequence of code
  units; all inputs in scope are ASCII).  `String.trim`, `split`,
  `startsWith` and the regex matches of the source are modelled by explicit
  scanning functions defined below, each annotated with the source
  construct it embeds.
* The playback engine (`animate`) is modelled as a step relation over exact
  reals, because the interpolation branch divides by a Euclidean distance
  (`Math.sqrt`); everything the claims touch (indices, flags, status) is
  otherwise exact.
-/

/-- JavaScript double, restricted to the values that arise in this program:
NaN, the infinities, and exact finite values. -/
inductive JF where
  | nan : JF
  | inf : JF
  | ninf : JF
  | fin : ℚ → JF
deriving DecidableEq, Repr

/-- Embeds `Math.min`: NaN-propagating minimum. -/
def jmin : JF → JF → JF
  | .nan, _ => .nan
  | _, .nan => .nan
  | .ninf, _ => .ninf
  | _, .ninf => .ninf
  | .inf, b => b
  | a, .inf => a
  | .fin a, .fin b => .fin (min a b)

/-- Embeds `Math.max`: NaN-propagating maximum. -/
def jmax : JF → JF → JF
  | .nan, _ => .nan
  | _, .nan => .nan
  | .inf, _ => .inf
  | _, .inf => .inf
  | .ninf, b => b
  | a, .ninf => a
  | .fin a, .fin b => .fin (max a b)

/-- Embeds the JS `<=` comparison on numbers: false whenever NaN is involved. -/
def jle : JF → JF → Bool
  | .nan, _ => false
  | _, .nan => false
  | .ninf, _ => true
  | .inf, .inf => true
  | .inf, _ => false
  | .fin _, .inf => true
  | .fin a, .fin b => decide (a ≤ b)
  | .fin _, .ninf => false

/-- A `JF` is a finite number (not NaN, not infinite). -/
def isFin : JF → Bool
  | .fin _ => true
  | _ => false

/-- Whitespace recognised by JS `String.prototype.trim` (ASCII subset; the
Unicode space classes never occur in the inputs in scope). -/
def isWS (c : Char) : Bool :=
  c = ' ' ∨ c = '\t' ∨ c = '\n' ∨ c = '\r' ∨ c = '\x0b' ∨ c = '\x0c'

/-- Embeds `s.trim()`. -/
def trimChars (cs : List Char) : List Char :=
  ((cs.dropWhile isWS).reverse.dropWhile isWS).reverse

/-- Embeds `s.split(sep)` for a single-character separator. -/
def splitOnChar (sep : Char) : List Char → List (List Char)
  | [] => [[]]
  | c :: rest =>
    let r := splitOnChar sep rest
    if c = sep then [] :: r
    else
      match r with
      | [] => [[c]]
      | h :: t => (c :: h) :: t

/-- Decimal digit value. -/
def digitVal (c : Char) : ℕ := c.toNat - 48

/-- Value of a list of decimal digits, most significant first. -/
def digitsVal (cs : List Char) : ℕ :=
  cs.foldl (fun acc c => acc * 10 + digitVal c) 0

/-- The rational denoted by a decimal literal with the given sign, integer
digits, fraction digits and decimal exponent, built as one integer ratio
(`mkRat`) so that the kernel can evaluate it. -/
def decValue (sign : ℤ) (intPart fracPart : List Char) (expVal : ℤ) : ℚ :=
  let m : ℤ := (digitsVal intPart : ℤ) * (10 : ℤ) ^ fracPart.length + (digitsVal fracPart : ℤ)
  if 0 ≤ expVal then
    mkRat (sign * m * (10 : ℤ) ^ expVal.toNat) ((10 : ℕ) ^ fracPart.length)
  else
    mkRat (sign * m) ((10 : ℕ) ^ (fracPart.length + (-expVal).toNat))

/-- Embeds JS `parseFloat` on a code-unit list: skip leading whitespace,
optional sign, then either the literal `Infinity` or a decimal number
`digits [. digits] [e|E [sign] digits]`; trailing garbage is ignored and a
missing numeric prefix yields NaN.  (An incomplete exponent such as `"5e"`
is ignored, as in JS.)  The returned finite value is the exact rational the
decimal string denotes. -/
def parseFloatJF (cs : List Char) : JF :=
  let cs := cs.dropWhile isWS
  let sign : ℤ := if cs.headD ' ' = '-' then -1 else 1
  let cs := if cs.headD ' ' = '-' ∨ cs.headD ' ' = '+' then cs.tail else cs
  if "Infinity".toList.isPrefixOf cs then
    (if sign = 1 then JF.inf else JF.ninf)
  else
    let intPart := cs.takeWhile Char.isDigit
    let rest₁ := cs.dropWhile Char.isDigit
    let fracPart :=
      if rest₁.headD ' ' = '.' then rest₁.tail.takeWhile Char.isDigit else []
    let rest₂ :=
      if rest₁.headD ' ' = '.' then rest₁.tail.dropWhile Char.isDigit else rest₁
    if intPart = [] ∧ fracPart = [] then JF.nan
    else
      let expVal : ℤ :=
        if rest₂.headD ' ' = 'e' ∨ rest₂.headD ' ' = 'E' then
          let es := rest₂.tail
          let esign : ℤ := if es.headD ' ' = '-' then -1 else 1
          let es := if es.headD ' ' = '-' ∨ es.headD ' ' = '+' then es.tail else es
          let eds := es.takeWhile Char.isDigit
          if eds = [] then 0 else esign * (digitsVal eds : ℤ)
        else 0
      JF.fin (decValue sign intPart fracPart expVal)

/-- Embeds JS `parseInt(s)` (radix 10; the legacy hex auto-detection never
arises for the group-code strings in scope): `none` stands for NaN. -/
def parseIntJS (cs : List Char) : Option ℤ :=
  let cs := cs.dropWhile isWS
  let sign : ℤ := if cs.headD ' ' = '-' then -1 else 1
  let cs := if cs.headD ' ' = '-' ∨ cs.headD ' ' = '+' then cs.tail else cs
  let ds := cs.takeWhile Char.isDigit
  if ds = [] then none else some (sign * (digitsVal ds : ℤ))

/-- Embeds the test `codePart.match(/G0\s*` `/i) != null`: the regex matches
iff `G0` (case-insensitively) occurs as a substring; the trailing
whitespace-star matches vacuously. -/
def hasG0 : List Char → Bool
  | c₁ :: c₂ :: rest => ((c₁ = 'G' ∨ c₁ = 'g') ∧ c₂ = '0') ∨ hasG0 (c₂ :: rest)
  | _ => false

/-- Embeds the test against `/G1\s*` `/i`, analogously to `hasG0`. -/
def hasG1 : List Char → Bool
  | c₁ :: c₂ :: rest => ((c₁ = 'G' ∨ c₁ = 'g') ∧ c₂ = '1') ∨ hasG1 (c₂ :: rest)
  | _ => false

/-- Embeds regex capture `KEY([cls]+)`: find the first key character that is
followed by at least one character of the class, and capture the maximal
run of class characters after it (exactly how the backtracking engine
resolves `X([-\d.]+)` etc.). -/
def findCapture (key : Char → Bool) (cls : Char → Bool) : List Char → Option (List Char)
  | [] => none
  | c :: rest =>
    if key c then
      let run := rest.takeWhile cls
      if run = [] then findCapture key cls rest else some run
    else findCapture key cls rest

/-- Key of the `X` coordinate regex (case-insensitive). -/
def keyX (c : Char) : Bool := c = 'X' ∨ c = 'x'

/-- Key of the `Y` coordinate regex (case-insensitive). -/
def keyY (c : Char) : Bool := c = 'Y' ∨ c = 'y'

/-- Key of the `F` feed-rate regex (case-insensitive). -/
def keyF (c : Char) : Bool := c = 'F' ∨ c = 'f'

/-- Character class `[-\d.]` of the X/Y captures. -/
def clsXY (c : Char) : Bool := c = '-' ∨ c.isDigit ∨ c = '.'

/-- Character class `[\d.]` of the F capture. -/
def clsF (c : Char) : Bool := c.isDigit ∨ c = '.'

/-- Motion kind: the source stores the strings `'G0'` / `'G1'`. -/
inductive MKind where
  | g0 : MKind
  | g1 : MKind
deriving DecidableEq, Repr

/-- One parsed motion command, as pushed onto `this.commands`. -/
structure Cmd where
  kind : MKind
  x : JF
  y : JF
  feedRate : JF
  lineNumber : ℕ
deriving DecidableEq, Repr

/-- The mutable state threaded through the `parseGcode` loop: the command
list, the running coordinate/feed state, the bounding box, and the per-kind
counters. -/
structure PState where
  commands : List Cmd
  curX : JF
  curY : JF
  curF : JF
  minX : JF
  maxX : JF
  minY : JF
  maxY : JF
  g0Count : ℕ
  g1Count : ℕ
deriving DecidableEq, Repr

/-- State at the top of `parseGcode`: empty command list, running
coordinates and feed rate 0, bounding box seeded with
`Infinity`/`-Infinity`. -/
def initPState : PState :=
  ⟨[], .fin 0, .fin 0, .fin 0, .inf, .ninf, .inf, .ninf, 0, 0⟩

/-- Embeds the comment/empty filtering at the top of the loop body: trim the
raw line, skip it when empty or starting with `(`, `;` or `%`, strip the
inline comment at the first `;`, and skip when nothing remains.  Returns
the surviving `codePart`. -/
def stripLine (raw : List Char) : Option (List Char) :=
  let line := trimChars raw
  if line = [] ∨ line.headD ' ' = '(' ∨ line.headD ' ' = ';' ∨ line.headD ' ' = '%' then
    none
  else
    let codePart := trimChars (line.takeWhile (fun c => ¬ c = ';'))
    if codePart = [] then none else some codePart

/-- Embeds one iteration of the `parseGcode` loop on the (0-based) line at
index `n - 1`, i.e. with 1-based line number `n`. -/
def processLine (st : PState) (n : ℕ) (raw : List Char) : PState :=
  match stripLine raw with
  | none => st
  | some codePart =>
    let g0 := hasG0 codePart
    let g1 := hasG1 codePart
    if g0 ∨ g1 then
      let isRapid := g0
      let newX := match findCapture keyX clsXY codePart with
        | some run => parseFloatJF run
        | none => st.curX
      let newY := match findCapture keyY clsXY codePart with
        | some run => parseFloatJF run
        | none => st.curY
      let newF := match findCapture keyF clsF codePart with
        | some run => parseFloatJF run
        | none => st.curF
      { commands := st.commands ++
          [⟨if isRapid then .g0 else .g1, newX, newY, newF, n⟩],
        curX := newX, curY := newY, curF := newF,
        minX := jmin st.minX newX, maxX := jmax st.maxX newX,
        minY := jmin st.minY newY, maxY := jmax st.maxY newY,
        g0Count := st.g0Count + (if isRapid then 1 else 0),
        g1Count := st.g1Count + (if isRapid then 0 else 1) }
    else st

/-- Folds `processLine` over the lines; `n` is the number of lines already
consumed, so the next line gets 1-based number `n + 1`. -/
def parseGcodeAux (st : PState) (n : ℕ) : List (List Char) → PState
  | [] => st
  | l :: rest => parseGcodeAux (processLine st (n + 1) l) (n + 1) rest

/-- Embeds `parseGcode` (minus DOM reads/writes): split the text on
newlines, fold the per-line parser, and if no command was produced replace
the bounding box by the fixed default `(0,0)-(100,100)`. -/
def parseGcode (text : String) : PState :=
  let st := parseGcodeAux initPState 0 (splitOnChar '\n' text.toList)
  if st.commands = [] then
    { st with minX := .fin 0, maxX := .fin 100, minY := .fin 0, maxY := .fin 100 }
  else st

/-- A line is harmless for the envelope: every X/Y capture present on it
parses to a finite number (rather than NaN, as e.g. the capture of
`"G0 X-"` does). -/
def lineXYFinite (raw : List Char) : Bool :=
  match stripLine raw with
  | none => true
  | some codePart =>
    (match findCapture keyX clsXY codePart with
     | some run => isFin (parseFloatJF run)
     | none => true) &&
    (match findCapture keyY clsXY codePart with
     | some run => isFin (parseFloatJF run)
     | none => true)

/-- Loop invariant of `parseGcode`: the running coordinates are finite, the
bounding box is still at its `Infinity` seeds exactly while no command has
been emitted, is finite afterwards, and encloses the coordinates of every
emitted command. -/
def PInv (st : PState) : Prop :=
  isFin st.curX = true ∧ isFin st.curY = true ∧
  (st.commands = [] →
    st.minX = JF.inf ∧ st.maxX = JF.ninf ∧ st.minY = JF.inf ∧ st.maxY = JF.ninf) ∧
  (st.commands ≠ [] →
    isFin st.minX = true ∧ isFin st.maxX = true ∧
    isFin st.minY = true ∧ isFin st.maxY = true) ∧
  (∀ c ∈ st.commands, isFin c.x = true ∧ isFin c.y = true ∧
    jle st.minX c.x = true ∧ jle c.x st.maxX = true ∧
    jle st.minY c.y = true ∧ jle c.y st.maxY = true)

/-- The view-transform state of the simulator: the current envelope
(`minX..maxY`), the canvas size, `padding`, and the derived `scale`,
`offsetX`, `offsetY`.  The finite doubles involved are modelled as exact
rationals. -/
structure ViewState where
  minX : ℚ
  maxX : ℚ
  minY : ℚ
  maxY : ℚ
  canvasWidth : ℚ
  canvasHeight : ℚ
  padding : ℚ
  scale : ℚ
  offsetX : ℚ
  offsetY : ℚ
deriving DecidableEq, Repr

/-- Embeds `calculateView`: early return when `width === 0 && height === 0`
(note: source checks BOTH dimensions, with `&&`), otherwise recompute
`scale` (the literal `0.9` denotes exactly `9/10`) and the centering
offsets.  Rational division by zero is the junk value 0 where IEEE yields
an infinity; the theorems below only ever evaluate the divisions at
nonzero denominators except in the C5 counterexample, whose property (the
transform is modified when exactly one dimension is zero) holds for either
convention. -/
def calculateView (v : ViewState) : ViewState :=
  let width := v.maxX - v.minX
  let height := v.maxY - v.minY
  if width = 0 ∧ height = 0 then v
  else
    let scaleX := (v.canvasWidth - v.padding * 2) / width
    let scaleY := (v.canvasHeight - v.padding * 2) / height
    let scale := min scaleX scaleY * (9 / 10)
    { v with
      scale := scale,
      offsetX := v.padding + (v.canvasWidth - v.padding * 2 - width * scale) / 2
        - v.minX * scale,
      offsetY := v.padding + (v.canvasHeight - v.padding * 2 - height * scale) / 2
        - v.minY * scale }

/-- Embeds `worldToCanvas`: scale/offset plus the vertical flip. -/
def worldToCanvas (v : ViewState) (x y : ℚ) : ℚ × ℚ :=
  (x * v.scale + v.offsetX, v.canvasHeight - (y * v.scale + v.offsetY))

/-- Embeds `canvasToWorld`, the inverse mapping. -/
def canvasToWorld (v : ViewState) (canvasX canvasY : ℚ) : ℚ × ℚ :=
  ((canvasX - v.offsetX) / v.scale, (v.canvasHeight - canvasY - v.offsetY) / v.scale)

/-- Embeds `parseFloat(lines[i + 1])` where the value line may be past the
end of the array: `parseFloat(undefined)` is NaN. -/
def parseFloatOpt : Option String → JF
  | none => JF.nan
  | some s => parseFloatJF s.toList

/-- A parsed `LINE` entity (all fields initialised to 0). -/
structure DxfLineEnt where
  x1 : JF
  y1 : JF
  x2 : JF
  y2 : JF
deriving DecidableEq, Repr

/-- A parsed `CIRCLE` entity. -/
structure DxfCircleEnt where
  cx : JF
  cy : JF
  r : JF
deriving DecidableEq, Repr

/-- A parsed `ARC` entity; note the source initialises `endAngle = 360`,
not 0. -/
structure DxfArcEnt where
  cx : JF
  cy : JF
  r : JF
  startAngle : JF
  endAngle : JF
deriving DecidableEq, Repr

/-- A parsed `LWPOLYLINE`/`POLYLINE` entity. -/
structure DxfPolyEnt where
  points : List (JF × JF)
  closed : Bool
deriving DecidableEq, Repr

/-- One group-code/value step of the `parseDxfLine` loop body. -/
def updLine (e : DxfLineEnt) (code : String) (v : Option String) : DxfLineEnt :=
  match parseIntJS code.toList with
  | some 10 => { e with x1 := parseFloatOpt v }
  | some 20 => { e with y1 := parseFloatOpt v }
  | some 11 => { e with x2 := parseFloatOpt v }
  | some 21 => { e with y2 := parseFloatOpt v }
  | _ => e

/-- Embeds the `parseDxfLine` loop: walk code/value pairs until the next
entity marker (the string `'0'`) or the end of input; a dangling code with
no value line reads `undefined`. -/
def parseDxfLineAux : List String → DxfLineEnt → DxfLineEnt
  | [], e => e
  | [code], e => if code = "0" then e else updLine e code none
  | code :: v :: rest, e =>
    if code = "0" then e else parseDxfLineAux rest (updLine e code (some v))

/-- Embeds `parseDxfLine(lines, startIndex)`, given the lines after the
`LINE` marker (the source starts at `startIndex + 1`). -/
def parseDxfLine (body : List String) : DxfLineEnt :=
  parseDxfLineAux body ⟨.fin 0, .fin 0, .fin 0, .fin 0⟩

/-- One group-code/value step of the `parseDxfCircle` loop body. -/
def updCircle (e : DxfCircleEnt) (code : String) (v : Option String) : DxfCircleEnt :=
  match parseIntJS code.toList with
  | some 10 => { e with cx := parseFloatOpt v }
  | some 20 => { e with cy := parseFloatOpt v }
  | some 40 => { e with r := parseFloatOpt v }
  | _ => e

/-- Embeds the `parseDxfCircle` loop. -/
def parseDxfCircleAux : List String → DxfCircleEnt → DxfCircleEnt
  | [], e => e
  | [code], e => if code = "0" then e else updCircle e code none
  | code :: v :: rest, e =>
    if code = "0" then e else parseDxfCircleAux rest (updCircle e code (some v))

/-- Embeds `parseDxfCircle`, given the lines after the `CIRCLE` marker. -/
def parseDxfCircle (body : List String) : DxfCircleEnt :=
  parseDxfCircleAux body ⟨.fin 0, .fin 0, .fin 0⟩

/-- One group-code/value step of the `parseDxfArc` loop body. -/
def updArc (e : DxfArcEnt) (code : String) (v : Option String) : DxfArcEnt :=
  match parseIntJS code.toList with
  | some 10 => { e with cx := parseFloatOpt v }
  | some 20 => { e with cy := parseFloatOpt v }
  | some 40 => { e with r := parseFloatOpt v }
  | some 50 => { e with startAngle := parseFloatOpt v }
  | some 51 => { e with endAngle := parseFloatOpt v }
  | _ => e

/-- Embeds the `parseDxfArc` loop. -/
def parseDxfArcAux : List String → DxfArcEnt → DxfArcEnt
  | [], e => e
  | [code], e => if code = "0" then e else updArc e code none
  | code :: v :: rest, e =>
    if code = "0" then e else parseDxfArcAux rest (updArc e code (some v))

/-- Embeds `parseDxfArc`, given the lines after the `ARC` marker: note the
initial accumulator `endAngle = 360`. -/
def parseDxfArc (body : List String) : DxfArcEnt :=
  parseDxfArcAux body ⟨.fin 0, .fin 0, .fin 0, .fin 0, .fin 360⟩

/-- Accumulator of the `parseDxfPolyline` loop: the flushed points, the
closed flag, and the vertex currently being accumulated. -/
structure PolyAcc where
  points : List (JF × JF)
  closed : Bool
  curX : JF
  curY : JF
deriving DecidableEq, Repr

/-- One group-code/value step of the `parseDxfPolyline` loop body: a new
code-10 value flushes the previously accumulated vertex, but only if it
passes the truthiness-style test
`currentX !== 0 || currentY !== 0 || points.length > 0`; code 70 reads the
closed bit via `(parseInt(value) & 1) === 1` (JS coerces NaN to 0 before
the bitwise and). -/
def updPoly (a : PolyAcc) (code : String) (v : Option String) : PolyAcc :=
  match parseIntJS code.toList with
  | some 10 =>
    let pts := if a.curX ≠ JF.fin 0 ∨ a.curY ≠ JF.fin 0 ∨ a.points ≠ [] then
        a.points ++ [(a.curX, a.curY)]
      else a.points
    { a with points := pts, curX := parseFloatOpt v }
  | some 20 => { a with curY := parseFloatOpt v }
  | some 70 =>
    { a with closed := match v with
        | none => false
        | some s => match parseIntJS s.toList with
          | none => false
          | some k => decide (k % 2 = 1) }
  | _ => a

/-- Embeds the `parseDxfPolyline` loop.  The loop continues while
`lines[i] !== '0' || lines[i+1] === 'VERTEX'` (an out-of-range
`lines[i+1]` is `undefined`, which is not `'VERTEX'`); the mid-loop
`break` after `i += 2` tests exactly the complement of that condition, so
it is subsumed by the loop head. -/
def parseDxfPolylineAux : List String → PolyAcc → PolyAcc
  | [], a => a
  | [code], a => if code = "0" then a else updPoly a code none
  | code :: v :: rest, a =>
    if code = "0" ∧ ¬ v = "VERTEX" then a
    else parseDxfPolylineAux rest (updPoly a code (some v))

/-- Embeds `parseDxfPolyline` given the lines after the marker (the unused
`entityType` parameter of the source is omitted): run the loop, then flush
the last accumulated vertex if it passes `currentX !== 0 || currentY !== 0`. -/
def parseDxfPolyline (body : List String) : DxfPolyEnt :=
  let a := parseDxfPolylineAux body ⟨[], false, .fin 0, .fin 0⟩
  ⟨if a.curX ≠ JF.fin 0 ∨ a.curY ≠ JF.fin 0 then a.points ++ [(a.curX, a.curY)]
    else a.points, a.closed⟩

/-- Tagged union of the parsed CAD entities. -/
inductive DxfEntity where
  | line : DxfLineEnt → DxfEntity
  | poly : DxfPolyEnt → DxfEntity
  | circle : DxfCircleEnt → DxfEntity
  | arc : DxfArcEnt → DxfEntity
deriving DecidableEq, Repr

/-- Embeds the entity-dispatch loop of `dxfToGcode` on the lines after the
`ENTITIES` marker: scan one line at a time until `ENDSEC`, parsing an
entity from the following lines whenever a marker is hit (the outer loop
advances by a single line per iteration, exactly as in the source). -/
def scanEntities : List String → List DxfEntity
  | [] => []
  | l :: rest =>
    if l = "ENDSEC" then []
    else
      let es := scanEntities rest
      if l = "LINE" then DxfEntity.line (parseDxfLine rest) :: es
      else if l = "LWPOLYLINE" ∨ l = "POLYLINE" then
        DxfEntity.poly (parseDxfPolyline rest) :: es
      else if l = "CIRCLE" then DxfEntity.circle (parseDxfCircle rest) :: es
      else if l = "ARC" then DxfEntity.arc (parseDxfArc rest) :: es
      else es

/-- Embeds the angle bookkeeping of the ARC branch of
`generateGcodeFromEntities`: convert the start/end angles to radians and
let the swept angle be their difference, adding one full turn when the
difference is negative. -/
noncomputable def arcAngleDiff (startAngle endAngle : ℝ) : ℝ :=
  let startRad := startAngle * Real.pi / 180
  let endRad := endAngle * Real.pi / 180
  let d := endRad - startRad
  if d < 0 then d + 2 * Real.pi else d

/-- The angle of the `j`-th tessellated arc point,
`startRad + (j / segments) * angleDiff` with `segments = 18`. -/
noncomputable def arcAngle (startAngle endAngle : ℝ) (j : ℕ) : ℝ :=
  startAngle * Real.pi / 180 + ((j : ℝ) / 18) * arcAngleDiff startAngle endAngle

/-- The 18 tessellated arc points emitted by the loop `j = 1 .. segments`. -/
noncomputable def arcPoints (cx cy r startAngle endAngle : ℝ) : List (ℝ × ℝ) :=
  (List.range 18).map (fun j =>
    (cx + r * Real.cos (arcAngle startAngle endAngle (j + 1)),
     cy + r * Real.sin (arcAngle startAngle endAngle (j + 1))))

/-- The angle of the `j`-th tessellated circle point,
`(j / segments) * 2π` with `segments = 36`. -/
noncomputable def circleAngle (j : ℕ) : ℝ :=
  ((j : ℝ) / 36) * (2 * Real.pi)

/-- The `j`-th tessellated circle point of the CIRCLE branch of
`generateGcodeFromEntities`. -/
noncomputable def circlePoint (cx cy r : ℝ) (j : ℕ) : ℝ × ℝ :=
  (cx + r * Real.cos (circleAngle j), cy + r * Real.sin (circleAngle j))

/-- The start point the CIRCLE branch rapids to before lowering:
`(cx + r, cy)`, i.e. angle 0, east of the center. -/
def circleStart (cx cy r : ℝ) : ℝ × ℝ := (cx + r, cy)

/-- The 36 linear points emitted by the loop `j = 1 .. segments`. -/
noncomputable def circlePoints (cx cy r : ℝ) : List (ℝ × ℝ) :=
  (List.range 36).map (fun j => circlePoint cx cy r (j + 1))

/-- Status string shown by `updateStatus`. -/
inductive SStatus where
  | ready : SStatus
  | running : SStatus
  | paused : SStatus
  | complete : SStatus
deriving DecidableEq, Repr

/-- Kind tag of a `pathHistory` entry (`'start'`, `'G0'` or `'G1'`). -/
inductive HKind where
  | start : HKind
  | g0 : HKind
  | g1 : HKind
deriving DecidableEq, Repr

/-- The history tag of a motion command. -/
def MKind.toH : MKind → HKind
  | .g0 => HKind.g0
  | .g1 => HKind.g1

/-- A motion command as consumed by the playback engine (coordinates as
exact reals, since interpolation divides by a Euclidean distance). -/
structure SimCmd where
  kind : MKind
  x : ℝ
  y : ℝ
  feedRate : ℝ

/-- The playback-relevant mutable state of the simulator object.
`scheduled` records whether the step requested another animation frame
(`requestAnimationFrame` at the end of `animate`). -/
structure SimState where
  commands : List SimCmd
  currentIndex : ℕ
  toolX : ℝ
  toolY : ℝ
  feedRate : ℝ
  speed : ℝ
  isRunning : Bool
  isPaused : Bool
  status : SStatus
  pathHistory : List (ℝ × ℝ × HKind)
  scheduled : Bool

/-- Embeds `(this.speed / 25) * (cmd.type === 'G0' ? 3 : 1)`. -/
noncomputable def stepSize (s : SimState) (c : SimCmd) : ℝ :=
  s.speed / 25 * (if c.kind = MKind.g0 then 3 else 1)

/-- Embeds the Euclidean distance from the tool to the target command. -/
noncomputable def distTo (s : SimState) (c : SimCmd) : ℝ :=
  Real.sqrt ((c.x - s.toolX) ^ 2 + (c.y - s.toolY) ^ 2)

/-- Step relation embedding one invocation of `animate`, one constructor
per control-flow path of the source:
`idle` (not running, commands remain): return unchanged, no reschedule;
`complete` (`currentIndex >= commands.length`): stop running, status
Complete, no reschedule;
`snap` (running, target closer than the step): snap exactly onto the
target, append it to the history, advance the index, reschedule;
`interp` (running, target farther than the step): move a fraction
`stepSize / distance` of the remaining vector toward the target,
reschedule. -/
inductive AniStep : SimState → SimState → Prop where
  | idle (s : SimState) (hrun : s.isRunning = false)
      (hidx : s.currentIndex < s.commands.length) :
      AniStep s { s with scheduled := false }
  | complete (s : SimState) (hidx : s.commands.length ≤ s.currentIndex) :
      AniStep s { s with
        isRunning := false,
        status := SStatus.complete,
        scheduled := false }
  | snap (s : SimState) (c : SimCmd) (hrun : s.isRunning = true)
      (hc : s.commands[s.currentIndex]? = some c)
      (hlt : distTo s c < stepSize s c) :
      AniStep s { s with
        toolX := c.x,
        toolY := c.y,
        feedRate := c.feedRate,
        pathHistory := s.pathHistory ++ [(c.x, c.y, c.kind.toH)],
        currentIndex := s.currentIndex + 1,
        scheduled := true }
  | interp (s : SimState) (c : SimCmd) (hrun : s.isRunning = true)
      (hc : s.commands[s.currentIndex]? = some c)
      (hge : ¬ distTo s c < stepSize s c) :
      AniStep s { s with
        toolX := s.toolX + (c.x - s.toolX) * (stepSize s c / distTo s c),
        toolY := s.toolY + (c.y - s.toolY) * (stepSize s c / distTo s c),
        scheduled := true }

/-- A running state with an exhausted (empty) command list, used to witness
the completion transition. -/
noncomputable def simRunDone : SimState :=
  ⟨[], 0, 0, 0, 0, 50, true, false, SStatus.ready, [], false⟩

/-- The state reached from `simRunDone` by the completion branch. -/
noncomputable def simRunDone' : SimState :=
  { simRunDone with
    isRunning := false,
    status := SStatus.complete,
    scheduled := false }

lemma jle_fin {a b : ℚ} : jle (JF.fin a) (JF.fin b) = true ↔ a ≤ b := by
  simp [jle]

lemma isFin_iff {v : JF} : isFin v = true ↔ ∃ q, v = JF.fin q := by
  cases v <;> simp [isFin]

lemma jmin_fin {a b : ℚ} : jmin (JF.fin a) (JF.fin b) = JF.fin (min a b) := rfl

lemma jmax_fin {a b : ℚ} : jmax (JF.fin a) (JF.fin b) = JF.fin (max a b) := rfl

lemma jmin_inf_fin {b : ℚ} : jmin JF.inf (JF.fin b) = JF.fin b := rfl

lemma jmax_ninf_fin {b : ℚ} : jmax JF.ninf (JF.fin b) = JF.fin b := rfl

lemma processLine_inv (st : PState) (n : ℕ) (raw : List Char)
    (hst : PInv st) (hline : lineXYFinite raw = true) :
    PInv (processLine st n raw) := by
  obtain ⟨hcx, hcy, hsentinel, hfinbb, hcmds⟩ := hst
  unfold processLine
  unfold lineXYFinite at hline
  cases hstrip : stripLine raw with
  | none => exact ⟨hcx, hcy, hsentinel, hfinbb, hcmds⟩
  | some codePart =>
    rw [hstrip] at hline
    dsimp only at hline
    rw [Bool.and_eq_true] at hline
    obtain ⟨hlX, hlY⟩ := hline
    dsimp only
    by_cases hrec : (hasG0 codePart = true ∨ hasG1 codePart = true)
    · rw [if_pos hrec]
      have hx : ∃ qx, (match findCapture keyX clsXY codePart with
          | some run => parseFloatJF run
          | none => st.curX) = JF.fin qx := by
        cases hfx : findCapture keyX clsXY codePart with
        | none => exact isFin_iff.mp hcx
        | some run =>
          rw [hfx] at hlX
          dsimp only at hlX
          exact isFin_iff.mp hlX
      have hy : ∃ qy, (match findCapture keyY clsXY codePart with
          | some run => parseFloatJF run
          | none => st.curY) = JF.fin qy := by
        cases hfy : findCapture keyY clsXY codePart with
        | none => exact isFin_iff.mp hcy
        | some run =>
          rw [hfy] at hlY
          dsimp only at hlY
          exact isFin_iff.mp hlY
      obtain ⟨qx, hqx⟩ := hx
      obtain ⟨qy, hqy⟩ := hy
      unfold PInv
      dsimp only
      rw [hqx, hqy]
      by_cases hemp : st.commands = []
      · obtain ⟨hs1, hs2, hs3, hs4⟩ := hsentinel hemp
        rw [hemp, hs1, hs2, hs3, hs4]
        refine ⟨by simp [isFin], by simp [isFin], by simp, fun _ => ?_, fun c hc => ?_⟩
        · simp [jmin, jmax, isFin]
        · simp only [List.nil_append, List.mem_singleton] at hc
          subst hc
          dsimp only
          exact ⟨by simp [isFin], by simp [isFin], by simp [jmin, jle],
            by simp [jmax, jle], by simp [jmin, jle], by simp [jmax, jle]⟩
      · obtain ⟨hb1, hb2, hb3, hb4⟩ := hfinbb hemp
        obtain ⟨m1, hm1⟩ := isFin_iff.mp hb1
        obtain ⟨m2, hm2⟩ := isFin_iff.mp hb2
        obtain ⟨m3, hm3⟩ := isFin_iff.mp hb3
        obtain ⟨m4, hm4⟩ := isFin_iff.mp hb4
        rw [hm1, hm2, hm3, hm4]
        refine ⟨by simp [isFin], by simp [isFin], by simp, fun _ => ?_, fun c hc => ?_⟩
        · simp [jmin_fin, jmax_fin, isFin]
        · rw [List.mem_append] at hc
          rcases hc with hc | hc
          · obtain ⟨hcf1, hcf2, hcb1, hcb2, hcb3, hcb4⟩ := hcmds c hc
            rw [hm1] at hcb1; rw [hm2] at hcb2; rw [hm3] at hcb3; rw [hm4] at hcb4
            obtain ⟨cx, hcx'⟩ := isFin_iff.mp hcf1
            obtain ⟨cy, hcy'⟩ := isFin_iff.mp hcf2
            rw [hcx'] at hcb1 hcb2
            rw [hcy'] at hcb3 hcb4
            rw [hcx', hcy']
            refine ⟨by simp [isFin], by simp [isFin], ?_, ?_, ?_, ?_⟩
            · rw [jmin_fin, jle_fin]
              exact le_trans (min_le_left _ _) (jle_fin.mp hcb1)
            · rw [jmax_fin, jle_fin]
              exact le_trans (jle_fin.mp hcb2) (le_max_left _ _)
            · rw [jmin_fin, jle_fin]
              exact le_trans (min_le_left _ _) (jle_fin.mp hcb3)
            · rw [jmax_fin, jle_fin]
              exact le_trans (jle_fin.mp hcb4) (le_max_left _ _)
          · simp only [List.mem_singleton] at hc
            subst hc
            dsimp only
            refine ⟨by simp [isFin], by simp [isFin], ?_, ?_, ?_, ?_⟩
            · rw [jmin_fin, jle_fin]
              exact min_le_right _ _
            · rw [jmax_fin, jle_fin]
              exact le_max_right _ _
            · rw [jmin_fin, jle_fin]
              exact min_le_right _ _
            · rw [jmax_fin, jle_fin]
              exact le_max_right _ _
    · rw [if_neg hrec]
      exact ⟨hcx, hcy, hsentinel, hfinbb, hcmds⟩

lemma parseGcodeAux_inv :
    ∀ (ls : List (List Char)) (st : PState) (n : ℕ), PInv st →
      (∀ l ∈ ls, lineXYFinite l = true) → PInv (parseGcodeAux st n ls) := by
  intro ls
  induction ls with
  | nil => intro st n h _; exact h
  | cons l rest ih =>
    intro st n h hall
    exact ih _ _ (processLine_inv st (n + 1) l h (hall l (List.mem_cons_self _ _)))
      (fun l' hl' => hall l' (List.mem_cons_of_mem _ hl'))

lemma initPState_inv : PInv initPState := by
  refine ⟨rfl, rfl, fun _ => ⟨rfl, rfl, rfl, rfl⟩, fun h => absurd rfl h, ?_⟩
  intro c hc
  simp [initPState] at hc

lemma round_trip_of_scale_ne_zero (v : ViewState) (hs : v.scale ≠ 0) (x y : ℚ) :
    canvasToWorld v (worldToCanvas v x y).1 (worldToCanvas v x y).2 = (x, y) := by
  unfold worldToCanvas canvasToWorld
  dsimp only
  refine Prod.ext ?_ ?_ <;> dsimp only
  · rw [add_sub_cancel_right, mul_div_cancel_right₀ _ hs]
  · have h : v.canvasHeight - (v.canvasHeight - (y * v.scale + v.offsetY)) - v.offsetY
        = y * v.scale := by ring
    rw [h, mul_div_cancel_right₀ _ hs]

lemma calculateView_scale_pos (v : ViewState)
    (hw : v.minX < v.maxX) (hh : v.minY < v.maxY)
    (hW : v.padding * 2 < v.canvasWidth) (hH : v.padding * 2 < v.canvasHeight) :
    0 < (calculateView v).scale := by
  unfold calculateView
  rw [if_neg (fun h => absurd h.1 (sub_ne_zero.mpr (ne_of_gt hw)))]
  dsimp only
  have h1 : 0 < (v.canvasWidth - v.padding * 2) / (v.maxX - v.minX) :=
    div_pos (by linarith) (by linarith)
  have h2 : 0 < (v.canvasHeight - v.padding * 2) / (v.maxY - v.minY) :=
    div_pos (by linarith) (by linarith)
  exact mul_pos (lt_min h1 h2) (by norm_num)

lemma aniStep_index_mono {a b : SimState} (h : AniStep a b) :
    a.currentIndex ≤ b.currentIndex := by
  cases h <;> simp

lemma aniStep_of_running {a b : SimState} (h : AniStep a b) (hrun : a.isRunning = true) :
    ((b.isRunning = false ∧ b.status = SStatus.complete ∧ b.scheduled = false) ↔
      a.commands.length ≤ a.currentIndex) := by
  cases h with
  | idle hr hidx => simp [hrun] at hr
  | complete hidx => simp [hidx]
  | snap c hr hc hlt =>
    have hlt' : a.currentIndex < a.commands.length := by
      obtain ⟨hl, -⟩ := List.getElem?_eq_some.mp hc
      exact hl
    simp [hrun, Nat.not_le.mpr hlt']
  | interp c hr hc hge =>
    have hlt' : a.currentIndex < a.commands.length := by
      obtain ⟨hl, -⟩ := List.getElem?_eq_some.mp hc
      exact hl
    simp [hrun, Nat.not_le.mpr hlt']

lemma aniStep_at_end {a b : SimState} (h : AniStep a b)
    (hidx : a.commands.length ≤ a.currentIndex) :
    b.isRunning = false ∧ b.status = SStatus.complete ∧ b.scheduled = false := by
  cases h with
  | idle hr hidx' => omega
  | complete hidx' => exact ⟨rfl, rfl, rfl⟩
  | snap c hr hc hlt =>
    have : a.currentIndex < a.commands.length := by
      obtain ⟨hl, -⟩ := List.getElem?_eq_some.mp hc
      exact hl
    omega
  | interp c hr hc hge =>
    have : a.currentIndex < a.commands.length := by
      obtain ⟨hl, -⟩ := List.getElem?_eq_some.mp hc
      exact hl
    omega

/-- C1: Coordinate carry-forward in `parseGcode`: on every recognized G0/G1
line the X, Y and F fields, when present, overwrite the running state and
absent fields inherit the prior running value (initially 0); parsing
`"G0 X5\nG1 Y10 F200"` yields exactly the two commands
`(RAPID, 5, 0, 0)` and `(LINEAR, 5, 10, 200)`. -/
theorem parseGcode_carry_forward :
    ((parseGcode "G0 X5\nG1 Y10 F200").commands =
      [⟨.g0, .fin 5, .fin 0, .fin 0, 1⟩, ⟨.g1, .fin 5, .fin 10, .fin 200, 2⟩]) ∧
    (∀ (st : PState) (n : ℕ) (raw codePart : List Char),
      stripLine raw = some codePart →
      hasG0 codePart = true ∨ hasG1 codePart = true →
      ((processLine st n raw).curX = (match findCapture keyX clsXY codePart with
        | some run => parseFloatJF run
        | none => st.curX)) ∧
      ((processLine st n raw).curY = (match findCapture keyY clsXY codePart with
        | some run => parseFloatJF run
        | none => st.curY)) ∧
      ((processLine st n raw).curF = (match findCapture keyF clsF codePart with
        | some run => parseFloatJF run
        | none => st.curF)) ∧
      (processLine st n raw).commands = st.commands ++
        [⟨if hasG0 codePart = true then MKind.g0 else MKind.g1,
          (processLine st n raw).curX, (processLine st n raw).curY,
          (processLine st n raw).curF, n⟩]) := by
  constructor
  · decide
  · intro st n raw codePart hstrip hrec
    unfold processLine
    rw [hstrip]
    dsimp only
    rw [if_pos hrec]
    exact ⟨rfl, rfl, rfl, rfl⟩

/-- Witness for C1: processing `"G1 Y10 F200"` from the initial state
inherits X = 0 and overwrites Y and F. -/
theorem parseGcode_carry_forward_witness :
    ((processLine initPState 2 ("G1 Y10 F200".toList)).curX =
      (match findCapture keyX clsXY ("G1 Y10 F200".toList) with
        | some run => parseFloatJF run
        | none => initPState.curX)) ∧
    ((processLine initPState 2 ("G1 Y10 F200".toList)).curY =
      (match findCapture keyY clsXY ("G1 Y10 F200".toList) with
        | some run => parseFloatJF run
        | none => initPState.curY)) ∧
    ((processLine initPState 2 ("G1 Y10 F200".toList)).curF =
      (match findCapture keyF clsF ("G1 Y10 F200".toList) with
        | some run => parseFloatJF run
        | none => initPState.curF)) ∧
    (processLine initPState 2 ("G1 Y10 F200".toList)).commands = initPState.commands ++
      [⟨if hasG0 ("G1 Y10 F200".toList) = true then MKind.g0 else MKind.g1,
        (processLine initPState 2 ("G1 Y10 F200".toList)).curX,
        (processLine initPState 2 ("G1 Y10 F200".toList)).curY,
        (processLine initPState 2 ("G1 Y10 F200".toList)).curF, 2⟩] :=
  parseGcode_carry_forward.2 initPState 2 ("G1 Y10 F200".toList) ("G1 Y10 F200".toList)
    (by decide) (Or.inr (by decide))

/-- C2 counterexample: on input `"G0 X-"` the capture of the X field is
`"-"`, which `parseFloat` turns into NaN; the command list is non-empty,
the envelope's `minX` is NaN (observable by consumers), and the bound
`minX <= x` fails for the emitted command, refuting the claim as stated. -/
theorem parseGcode_envelope_cex :
    (parseGcode "G0 X-").commands ≠ [] ∧
    (parseGcode "G0 X-").minX = JF.nan ∧
    ∃ c ∈ (parseGcode "G0 X-").commands, ¬(jle (parseGcode "G0 X-").minX c.x = true) := by
  decide

/-- C2 (amended): for every input text whose present X/Y captures all parse
to finite numbers, every command's coordinates lie within the envelope,
an empty command list yields the fixed default box (0,0)-(100,100), and
the final bounds are always finite (never infinite or NaN). -/
theorem parseGcode_envelope (text : String)
    (hfin : ∀ l ∈ splitOnChar '\n' text.toList, lineXYFinite l = true) :
    ((parseGcode text).commands = [] →
      (parseGcode text).minX = JF.fin 0 ∧ (parseGcode text).maxX = JF.fin 100 ∧
      (parseGcode text).minY = JF.fin 0 ∧ (parseGcode text).maxY = JF.fin 100) ∧
    (∀ c ∈ (parseGcode text).commands,
      jle (parseGcode text).minX c.x = true ∧ jle c.x (parseGcode text).maxX = true ∧
      jle (parseGcode text).minY c.y = true ∧ jle c.y (parseGcode text).maxY = true) ∧
    (isFin (parseGcode text).minX = true ∧ isFin (parseGcode text).maxX = true ∧
     isFin (parseGcode text).minY = true ∧ isFin (parseGcode text).maxY = true) := by
  have hinv := parseGcodeAux_inv (splitOnChar '\n' text.toList) initPState 0 initPState_inv hfin
  unfold parseGcode
  dsimp only
  by_cases hemp : (parseGcodeAux initPState 0 (splitOnChar '\n' text.toList)).commands = []
  · rw [if_pos hemp]
    dsimp only
    refine ⟨fun _ => ⟨rfl, rfl, rfl, rfl⟩, fun c hc => ?_, by simp [isFin]⟩
    rw [hemp] at hc
    exact absurd hc (List.not_mem_nil c)
  · rw [if_neg hemp]
    obtain ⟨-, -, -, hfins, hcmds⟩ := hinv
    refine ⟨fun h => absurd h hemp, fun c hc => ?_, ?_⟩
    · obtain ⟨-, -, h1, h2, h3, h4⟩ := hcmds c hc
      exact ⟨h1, h2, h3, h4⟩
    · obtain ⟨f1, f2, f3, f4⟩ := hfins hemp
      exact ⟨f1, f2, f3, f4⟩

/-- Witness for C2 (amended), at the all-finite input `"G0 X5\nG1 Y10 F200"`. -/
theorem parseGcode_envelope_witness :
    isFin (parseGcode "G0 X5\nG1 Y10 F200").minX = true ∧
    isFin (parseGcode "G0 X5\nG1 Y10 F200").maxX = true ∧
    isFin (parseGcode "G0 X5\nG1 Y10 F200").minY = true ∧
    isFin (parseGcode "G0 X5\nG1 Y10 F200").maxY = true :=
  (parseGcode_envelope "G0 X5\nG1 Y10 F200" (by decide)).2.2

/-- C10: per line the parser emits at most one command, and when a
comment-stripped line matches both the G0 and the G1 pattern the single
emitted command is classified RAPID (the `isRapid = !!g0Match` assignment
gives G0 priority). -/
theorem processLine_rapid_priority (st : PState) (n : ℕ) (raw : List Char) :
    (processLine st n raw).commands.length ≤ st.commands.length + 1 ∧
    (∀ codePart, stripLine raw = some codePart →
      hasG0 codePart = true → hasG1 codePart = true →
      (processLine st n raw).commands = st.commands ++
        [⟨MKind.g0, (processLine st n raw).curX, (processLine st n raw).curY,
          (processLine st n raw).curF, n⟩]) := by
  constructor
  · unfold processLine
    cases hstrip : stripLine raw with
    | none => exact Nat.le_succ _
    | some codePart =>
      dsimp only
      by_cases hrec : (hasG0 codePart = true ∨ hasG1 codePart = true)
      · rw [if_pos hrec]
        simp
      · rw [if_neg hrec]
        exact Nat.le_succ _
  · intro codePart hstrip hg0 hg1
    unfold processLine
    rw [hstrip]
    dsimp only
    rw [if_pos (Or.inl hg0)]
    rw [if_pos hg0]

/-- Witness for C10: the line `"G0 G1 X5"` matches both patterns and
produces one RAPID command. -/
theorem processLine_rapid_priority_witness :
    (processLine initPState 1 ("G0 G1 X5".toList)).commands = initPState.commands ++
      [⟨MKind.g0, (processLine initPState 1 ("G0 G1 X5".toList)).curX,
        (processLine initPState 1 ("G0 G1 X5".toList)).curY,
        (processLine initPState 1 ("G0 G1 X5".toList)).curF, 1⟩] :=
  (processLine_rapid_priority initPState 1 ("G0 G1 X5".toList)).2 ("G0 G1 X5".toList)
    (by decide) (by decide) (by decide)

/-- C4: view-transform round trip: for a transform computed by
`calculateView` from a non-degenerate envelope and a display larger than
twice the padding, `canvasToWorld` inverts `worldToCanvas` exactly (hence
a fortiori within the claimed 1e-6 tolerance), including the vertical
flip. -/
theorem view_round_trip (v : ViewState)
    (hw : v.minX < v.maxX) (hh : v.minY < v.maxY)
    (hW : v.padding * 2 < v.canvasWidth) (hH : v.padding * 2 < v.canvasHeight) :
    ∀ x y : ℚ,
      canvasToWorld (calculateView v)
        (worldToCanvas (calculateView v) x y).1
        (worldToCanvas (calculateView v) x y).2 = (x, y) :=
  fun x y => round_trip_of_scale_ne_zero (calculateView v)
    (ne_of_gt (calculateView_scale_pos v hw hh hW hH)) x y

/-- Witness for C4: envelope (0,0)-(10,10) on a 200x200 canvas with
padding 60, round-tripping the point (3,4). -/
theorem view_round_trip_witness :
    canvasToWorld (calculateView ⟨0, 10, 0, 10, 200, 200, 60, 1, 0, 0⟩)
      (worldToCanvas (calculateView ⟨0, 10, 0, 10, 200, 200, 60, 1, 0, 0⟩) 3 4).1
      (worldToCanvas (calculateView ⟨0, 10, 0, 10, 200, 200, 60, 1, 0, 0⟩) 3 4).2 = (3, 4) :=
  view_round_trip ⟨0, 10, 0, 10, 200, 200, 60, 1, 0, 0⟩
    (by norm_num) (by norm_num) (by norm_num) (by norm_num) 3 4

/-- C5 counterexample: with `maxX - minX = 0` but `maxY - minY = 1` the
guard (`width === 0 && height === 0`) does not fire, so `calculateView`
does recompute and change the transform — the claim that EITHER zero
dimension leaves the prior transform unchanged is false on the code. -/
theorem calculateView_guard_cex :
    ((⟨0, 0, 0, 1, 200, 200, 60, 5, 7, 7⟩ : ViewState).maxX -
      (⟨0, 0, 0, 1, 200, 200, 60, 5, 7, 7⟩ : ViewState).minX = 0) ∧
    (calculateView ⟨0, 0, 0, 1, 200, 200, 60, 5, 7, 7⟩).scale ≠
      (⟨0, 0, 0, 1, 200, 200, 60, 5, 7, 7⟩ : ViewState).scale := by
  constructor
  · norm_num
  · unfold calculateView
    rw [if_neg (by norm_num)]
    dsimp only
    norm_num [min_def]

/-- C5 (amended): the early return fires exactly when BOTH bounding-box
dimensions are zero; in that case `calculateView` leaves the whole prior
transform (scale and offsets) unchanged and performs no division. -/
theorem calculateView_guard (v : ViewState)
    (hw : v.maxX - v.minX = 0) (hh : v.maxY - v.minY = 0) :
    calculateView v = v := by
  unfold calculateView
  rw [if_pos ⟨hw, hh⟩]

/-- Witness for C5 (amended): a single-point envelope leaves the prior
transform untouched. -/
theorem calculateView_guard_witness :
    calculateView ⟨2, 2, 3, 3, 200, 200, 60, 5, 7, 7⟩ =
      (⟨2, 2, 3, 3, 200, 200, 60, 5, 7, 7⟩ : ViewState) :=
  calculateView_guard _ (by norm_num) (by norm_num)

/-- C8 counterexample: a truncated `ARC` entity (no attribute lines before
the next entity marker) yields `endAngle = 360`, not 0 — the claim that
missing fields are zero-valued for every entity kind including Arc is
false on the code. -/
theorem parseDxfArc_default_cex :
    (parseDxfArc ["0"]).endAngle = JF.fin 360 ∧
    (parseDxfArc ["0"]).endAngle ≠ JF.fin 0 := by
  decide

/-- C8 (amended): a malformed or truncated entity yields a degenerate
entity whose missing fields take the parser defaults — zero for every
field except an Arc's end angle, which defaults to 360 — the parsers are
total (never abort), and the rest of the batch is still parsed, as shown
for a truncated ARC followed by an intact LINE. -/
theorem dxf_malformed_tolerance :
    (∀ rest : List String,
      parseDxfLine ("0" :: rest) = ⟨.fin 0, .fin 0, .fin 0, .fin 0⟩ ∧
      parseDxfCircle ("0" :: rest) = ⟨.fin 0, .fin 0, .fin 0⟩ ∧
      parseDxfArc ("0" :: rest) = ⟨.fin 0, .fin 0, .fin 0, .fin 0, .fin 360⟩) ∧
    parseDxfLine [] = ⟨.fin 0, .fin 0, .fin 0, .fin 0⟩ ∧
    parseDxfCircle [] = ⟨.fin 0, .fin 0, .fin 0⟩ ∧
    parseDxfArc [] = ⟨.fin 0, .fin 0, .fin 0, .fin 0, .fin 360⟩ ∧
    scanEntities ["ARC", "0", "LINE", "10", "1", "20", "2", "11", "3", "21", "4", "ENDSEC"] =
      [DxfEntity.arc ⟨.fin 0, .fin 0, .fin 0, .fin 0, .fin 360⟩,
       DxfEntity.line ⟨.fin 1, .fin 2, .fin 3, .fin 4⟩] := by
  refine ⟨fun rest => ?_, by decide, by decide, by decide, by decide⟩
  cases rest with
  | nil => exact ⟨by decide, by decide, by decide⟩
  | cons v rest' =>
    refine ⟨?_, ?_, ?_⟩ <;>
      simp [parseDxfLine, parseDxfLineAux, parseDxfCircle, parseDxfCircleAux,
        parseDxfArc, parseDxfArcAux]

/-- C9: the polyline input with vertices (0,0) then (5,5) — group codes
`10 0 20 0 10 5 20 5` followed by the next entity marker — loses its
genuine (0,0) vertex: the output point sequence is exactly `[(5,5)]`. -/
theorem parseDxfPolyline_origin_drop :
    (parseDxfPolyline ["10", "0", "20", "0", "10", "5", "20", "5", "0", "ENDSEC"]).points =
      [(JF.fin 5, JF.fin 5)] ∧
    ¬((JF.fin 0, JF.fin 0) ∈
      (parseDxfPolyline ["10", "0", "20", "0", "10", "5", "20", "5", "0", "ENDSEC"]).points) := by
  decide

/-- C6 counterexample: for an arc with start angle 0 and end angle -400
degrees the single +360-degree correction still leaves a negative swept
angle, so the sweep is clockwise (decreasing angle) and not in [0, 360) --
the claim's "always counter-clockwise, swept angle always in [0°,360°)" is
false on the code. -/
theorem arc_sweep_cex :
    arcAngleDiff 0 (-400) < 0 ∧ ¬(0 ≤ arcAngleDiff 0 (-400)) := by
  have hpi := Real.pi_pos
  have hlt : arcAngleDiff 0 (-400) < 0 := by
    unfold arcAngleDiff
    dsimp only
    rw [if_pos (by nlinarith)]
    nlinarith
  exact ⟨hlt, not_le.mpr hlt⟩

/-- C6 (amended): the compiler tessellates every arc into exactly 18 equal
angular steps of `angleDiff / 18`, and whenever the end/start difference
lies in (-360°, 360°) the corrected swept angle is in [0, 2π) -- the sweep
is counter-clockwise, adding 360° once when the raw difference is
negative; in particular the 350°→10° arc sweeps exactly 20°. -/
theorem arc_sweep (s e : ℝ) (h₁ : -360 < e - s) (h₂ : e - s < 360) :
    (0 ≤ arcAngleDiff s e ∧ arcAngleDiff s e < 2 * Real.pi) ∧
    (∀ j : ℕ, arcAngle s e (j + 1) - arcAngle s e j = arcAngleDiff s e / 18) ∧
    (∀ cx cy r : ℝ, (arcPoints cx cy r s e).length = 18) ∧
    arcAngleDiff 350 10 = 20 * Real.pi / 180 := by
  have hpi := Real.pi_pos
  refine ⟨?_, ?_, ?_, ?_⟩
  · unfold arcAngleDiff
    dsimp only
    by_cases hd : e * Real.pi / 180 - s * Real.pi / 180 < 0
    · rw [if_pos hd]
      constructor
      · nlinarith [mul_lt_mul_of_pos_right h₁ hpi]
      · linarith
    · rw [if_neg hd]
      push_neg at hd
      exact ⟨hd, by nlinarith [mul_lt_mul_of_pos_right h₂ hpi]⟩
  · intro j
    unfold arcAngle
    push_cast
    ring
  · intro cx cy r
    unfold arcPoints
    simp
  · unfold arcAngleDiff
    dsimp only
    rw [if_pos (by nlinarith)]
    ring

/-- Witness for C6 (amended), at the 350°→10° arc of the claim. -/
theorem arc_sweep_witness :
    (-360 < (10 : ℝ) - 350 ∧ (10 : ℝ) - 350 < 360) ∧
    (0 ≤ arcAngleDiff 350 10 ∧ arcAngleDiff 350 10 < 2 * Real.pi) ∧
    arcAngleDiff 350 10 = 20 * Real.pi / 180 :=
  ⟨⟨by norm_num, by norm_num⟩,
   (arc_sweep 350 10 (by norm_num) (by norm_num)).1,
   (arc_sweep 350 10 (by norm_num) (by norm_num)).2.2.2⟩

/-- C7: circle tessellation closure: compilation produces exactly 36
linear points in equal angular steps of 2π/36 starting from angle 0 (east
of center, the point the rapid moves to), and the 36th (last) point equals
that start point exactly (full-turn closure; exact equality implies the
claimed floating tolerance). -/
theorem circle_closure (cx cy r : ℝ) :
    (circlePoints cx cy r).length = 36 ∧
    (∀ j : ℕ, circleAngle (j + 1) - circleAngle j = 2 * Real.pi / 36) ∧
    circleAngle 0 = 0 ∧
    circlePoint cx cy r 36 = circleStart cx cy r ∧
    (circlePoints cx cy r).getLast? = some (circleStart cx cy r) := by
  have hclose : circlePoint cx cy r 36 = circleStart cx cy r := by
    unfold circlePoint circleStart
    have hc : circleAngle 36 = 2 * Real.pi := by
      unfold circleAngle
      norm_num
    rw [hc, Real.cos_two_pi, Real.sin_two_pi]
    norm_num
  refine ⟨by simp [circlePoints], ?_, ?_, hclose, ?_⟩
  · intro j
    unfold circleAngle
    push_cast
    ring
  · unfold circleAngle
    norm_num
  · unfold circlePoints
    rw [show List.range 36 = List.range 35 ++ [35] from by decide]
    rw [List.map_append]
    simp only [List.map_cons, List.map_nil]
    rw [List.getLast?_concat]
    rw [show (35 : ℕ) + 1 = 36 from rfl, hclose]

/-- C3: across any sequence of `animate` steps `commandIndex` is
non-decreasing; a step out of a running state turns running off with
status Complete and no further scheduled tick exactly when the index has
reached the command count; and once the index has reached the count every
step (running or not) yields the Complete, not-running, unscheduled state,
so no further steps are scheduled. -/
theorem animate_monotone_complete (s s' t t' : SimState)
    (hseq : Relation.ReflTransGen AniStep s s') (hstep : AniStep t t') :
    s.currentIndex ≤ s'.currentIndex ∧
    t.currentIndex ≤ t'.currentIndex ∧
    (t.isRunning = true →
      ((t'.isRunning = false ∧ t'.status = SStatus.complete ∧ t'.scheduled = false) ↔
        t.commands.length ≤ t.currentIndex)) ∧
    (t.commands.length ≤ t.currentIndex →
      t'.isRunning = false ∧ t'.status = SStatus.complete ∧ t'.scheduled = false) := by
  refine ⟨?_, aniStep_index_mono hstep, fun hrun => aniStep_of_running hstep hrun,
    fun hidx => aniStep_at_end hstep hidx⟩
  induction hseq with
  | refl => exact le_refl _
  | tail hab hbc ih => exact le_trans ih (aniStep_index_mono hbc)

/-- Witness for C3: from `simRunDone` the completion branch fires: the
index is unchanged, running flips to false, status becomes Complete, and
no further tick is scheduled. -/
theorem animate_monotone_complete_witness :
    simRunDone.currentIndex ≤ simRunDone.currentIndex ∧
    simRunDone.currentIndex ≤ simRunDone'.currentIndex ∧
    (simRunDone.isRunning = true →
      ((simRunDone'.isRunning = false ∧ simRunDone'.status = SStatus.complete ∧
        simRunDone'.scheduled = false) ↔
        simRunDone.commands.length ≤ simRunDone.currentIndex)) ∧
    (simRunDone.commands.length ≤ simRunDone.currentIndex →
      simRunDone'.isRunning = false ∧ simRunDone'.status = SStatus.complete ∧
      simRunDone'.scheduled = false) :=
  animate_monotone_complete simRunDone simRunDone simRunDone simRunDone'
    Relation.ReflTransGen.refl (AniStep.complete simRunDone (le_refl _))
